import Mathlib

/-!
Verification of HashHound (`src/hashhound.py`), a duplicate-NT-hash reporter.
Strings model Python `str` restricted to their ASCII behaviour; files are
modelled as `Option (List String)` (`none` = file missing, `some lines` =
the file's lines); a Python `dict` is an insertion-ordered association list
with last-write-wins updates; a Python `set` is an insertion-ordered list
without repeats, queried only by membership.
-/

namespace HashHound

/-- Python `str.lower()` (ASCII behaviour), applied characterwise. -/
def pyLower (s : String) : String := String.mk (s.data.map Char.toLower)

/-- Characters stripped by Python `str.strip()` with no argument. -/
def isPySpace (c : Char) : Bool :=
  c = ' ' ∨ c = '\t' ∨ c = '\n' ∨ c = '\r' ∨ c = '\x0b' ∨ c = '\x0c'

/-- Python `str.strip()`: drop whitespace from both ends. -/
def pyStrip (s : String) : String :=
  String.mk (((s.data.dropWhile isPySpace).reverse.dropWhile isPySpace).reverse)

/-- Python `str.split(sep)` for a one-character separator, over the char list. -/
def splitChar (sep : Char) : List Char → List String
  | [] => [""]
  | c :: cs =>
    let rest := splitChar sep cs
    if c = sep then "" :: rest
    else
      match rest with
      | [] => [String.mk [c]]
      | r :: rs => String.mk (c :: r.data) :: rs

/-- Python `s.split(sep)` for a one-character separator. -/
def pySplit (sep : Char) (s : String) : List String := splitChar sep s.data

/-- Python `s.split("\\")[-1]`: the text after the last backslash
(`split` never returns an empty list, so the default is never used). -/
def stripDomain (s : String) : String := (pySplit '\\' s).getLastD ""

/-- One iteration of the `load_hashes` loop body: `line.strip().split(":")`,
keep lines with at least 4 fields, normalize field 0, take field 3 verbatim. -/
def parseLine (line : String) : Option (String × String) :=
  let parts := pySplit ':' (pyStrip line)
  if 4 ≤ parts.length then
    some (stripDomain (pyLower (parts.getD 0 "")), parts.getD 3 "")
  else none

/-- Python `d[k] = v` on an insertion-ordered dict: overwrite in place if the
key exists, otherwise append at the end. -/
def dictInsert (d : List (String × String)) (k v : String) : List (String × String) :=
  if d.any (fun p => p.1 == k) then
    d.map (fun p => if p.1 == k then (p.1, v) else p)
  else d ++ [(k, v)]

/-- `load_hashes` of `hashhound.py` on the lines of an existing dump file:
the identifier→hash dict built line by line. -/
def load_hashes (lines : List String) : List (String × String) :=
  lines.foldl
    (fun d line =>
      match parseLine line with
      | some (u, h) => dictInsert d u h
      | none => d)
    []

/-- Python `s.add(x)` on an insertion-ordered set modelled as a repeat-free list. -/
def setInsert (s : List String) (x : String) : List String :=
  if s.contains x then s else s ++ [x]

/-- `load_privileged_accounts` of `hashhound.py` on the lines of an existing
file: each line is stripped, lowercased, domain-stripped and added to the set. -/
def load_privileged_accounts (lines : List String) : List String :=
  lines.foldl (fun s line => setInsert s (stripDomain (pyLower (pyStrip line)))) []

/-- `hash_to_users[nt_hash].append(user)` on the defaultdict modelled as an
insertion-ordered association list. -/
def addUser (g : List (String × List String)) (h u : String) :
    List (String × List String) :=
  if g.any (fun p => p.1 == h) then
    g.map (fun p => if p.1 == h then (p.1, p.2 ++ [u]) else p)
  else g ++ [(h, [u])]

/-- The defaultdict built by the loop in `find_duplicate_hashes`. -/
def hash_to_users (hashes : List (String × String)) : List (String × List String) :=
  hashes.foldl (fun g p => addUser g p.2 p.1) []

/-- `find_duplicate_hashes` of `hashhound.py`: keep the hashes shared by 2+ users. -/
def find_duplicate_hashes (hashes : List (String × String)) :
    List (String × List String) :=
  (hash_to_users hashes).filter (fun p => 1 < p.2.length)

/-- One console-table entry `[nt_hash, user_count, displayed_users]`. -/
structure Entry where
  hash : String
  count : Nat
  displayed : String
deriving DecidableEq, Repr

/-- `f"*{user}*" if user.lower() in privileged_accounts else user`. -/
def highlight (priv : List String) (u : String) : String :=
  if priv.contains (pyLower u) then "*" ++ u ++ "*" else u

/-- The `highlighted_users` list comprehension of `display_results`. -/
def highlighted_users (priv : List String) (users : List String) : List String :=
  users.map (highlight priv)

/-- `any(user.lower() in privileged_accounts for user in users)`. -/
def contains_privileged (priv : List String) (users : List String) : Bool :=
  users.any (fun u => priv.contains (pyLower u))

/-- The `displayed_users` string of `display_results`: the joined member list
when the group has at most 5 members, otherwise the count-only text. -/
def displayed_users (priv : List String) (users : List String) : String :=
  if users.length ≤ 5 then String.intercalate ", " (highlighted_users priv users)
  else toString users.length ++ " accounts detected. Export to CSV for full list."

/-- The entry `[nt_hash, user_count, displayed_users]` built for one group. -/
def entryOf (priv : List String) (g : String × List String) : Entry :=
  ⟨g.1, g.2.length, displayed_users priv g.2⟩

/-- One iteration of the classification loop of `display_results`: append the
entry to `prioritized_data` when the group holds a privileged member, to
`table_data` otherwise. -/
def partitionStep (priv : List String) (acc : List Entry × List Entry)
    (g : String × List String) : List Entry × List Entry :=
  if contains_privileged priv g.2 then (acc.1 ++ [entryOf priv g], acc.2)
  else (acc.1, acc.2 ++ [entryOf priv g])

/-- `sorted_table = prioritized_data + table_data` of `display_results`. -/
def sorted_table (priv : List String) (dups : List (String × List String)) :
    List Entry :=
  let t := dups.foldl (partitionStep priv) ([], [])
  t.1 ++ t.2

/-- Whether Python's `csv` module (QUOTE_MINIMAL) quotes a field. -/
def needsQuote (s : String) : Bool :=
  s.data.any (fun c => c = ',' ∨ c = '"' ∨ c = '\n' ∨ c = '\r')

/-- Double every double-quote character, as the `csv` module does inside quotes. -/
def escapeQuotes : List Char → List Char
  | [] => []
  | c :: cs => if c = '"' then '"' :: '"' :: escapeQuotes cs else c :: escapeQuotes cs

/-- Serialization of one CSV field under QUOTE_MINIMAL. -/
def csvField (s : String) : String :=
  if needsQuote s then "\"" ++ String.mk (escapeQuotes s.data) ++ "\"" else s

/-- `csv.writer.writerow`: comma-join the serialized fields. -/
def csvRow (fields : List String) : String :=
  String.intercalate "," (fields.map csvField)

/-- The header row written by `display_results`. -/
def exportHeader : List String := ["NT Hash", "Shared By (Count)", "User Accounts"]

/-- The CSV data row written for one duplicate group:
`[nt_hash, len(users), ", ".join(highlighted_users)]`. -/
def exportRow (priv : List String) (g : String × List String) : List String :=
  [g.1, toString g.2.length, String.intercalate ", " (highlighted_users priv g.2)]

/-- All rows written to the CSV file: header then one row per group, in the
iteration order of `duplicate_hashes` (no privileged-first sort). -/
def exportRowsOf (priv : List String) (dups : List (String × List String)) :
    List (List String) :=
  exportHeader :: dups.map (exportRow priv)

/-- The serialized lines of the CSV file. -/
def exportLines (priv : List String) (dups : List (String × List String)) :
    List String :=
  (exportRowsOf priv dups).map csvRow

/-- Observable outcome of one run of `main`. `exportFile` is `none` when no
CSV file is created, `some rows` when one is written holding `rows`.
`consoleTable` is the table printed by `tabulate` (`none` when no table is
printed). `privWarning` records the missing-privileged-file warning on stderr;
`noDupNotice` records the "No duplicate hashes found" message. -/
structure RunResult where
  exitCode : Nat
  privWarning : Bool
  noDupNotice : Bool
  consoleTable : Option (List Entry)
  exportFile : Option (List (List String))
deriving DecidableEq, Repr

/-- The privileged set and warning flag produced by `main` from the
`--privileged` argument: `none` = flag absent, `some none` = flag given but
file missing, `some (some lines)` = file read. -/
def privOf (privArg : Option (Option (List String))) : List String × Bool :=
  match privArg with
  | none => ([], false)
  | some none => ([], true)
  | some (some pls) => (load_privileged_accounts pls, false)

/-- `main` after `load_hashes` succeeded on the lines of the dump file. -/
def runCore (lines : List String) (privArg : Option (Option (List String)))
    (outputRequested : Bool) : RunResult :=
  let hashes := load_hashes lines
  if hashes.isEmpty then ⟨1, false, false, none, none⟩
  else
    let pw := privOf privArg
    let dups := find_duplicate_hashes hashes
    if dups.isEmpty then ⟨0, pw.2, true, none, none⟩
    else
      ⟨0, pw.2, false, some (sorted_table pw.1 dups),
        if outputRequested then some (exportRowsOf pw.1 dups) else none⟩

/-- One full run of `main`: `dumpFile` is the `-f` file (`none` = missing,
fatal), `privArg` the `--privileged` argument, `outputRequested` whether
`-o` was supplied. -/
def runHashhound (dumpFile : Option (List String))
    (privArg : Option (Option (List String))) (outputRequested : Bool) : RunResult :=
  match dumpFile with
  | none => ⟨1, false, false, none, none⟩
  | some lines => runCore lines privArg outputRequested

/-- All identifiers mapped to hash `h`, in the order they sit in the dict. -/
def usersOf (hashes : List (String × String)) (h : String) : List String :=
  (hashes.filter (fun p => p.2 == h)).map (fun p => p.1)

/-- First occurrence of each string, in first-seen order. -/
def firstSeen : List String → List String
  | [] => []
  | x :: xs => x :: (firstSeen xs).filter (fun y => y != x)

/-- Modelled from the spec (§4.4): the console member text for one member,
"each wrapped in a highlight marker (literal asterisks surrounding the
identifier) when that member is privileged". -/
def specMemberDisplay (isPriv : Bool) (u : String) : String :=
  if isPriv then "*" ++ u ++ "*" else u

/-! ### Helper lemmas about the grouping pipeline -/

theorem mem_firstSeen {y : String} : ∀ {xs : List String}, y ∈ firstSeen xs ↔ y ∈ xs := by
  intro xs
  induction xs with
  | nil => simp [firstSeen]
  | cons x xs ih =>
    by_cases hyx : y = x
    · subst hyx; simp [firstSeen]
    · simp [firstSeen, List.mem_filter, hyx, ih]

theorem firstSeen_nodup : ∀ (xs : List String), (firstSeen xs).Nodup := by
  intro xs
  induction xs with
  | nil => simp [firstSeen]
  | cons x xs ih =>
    rw [firstSeen]
    refine List.Nodup.cons ?_ (ih.filter _)
    intro hx
    have := (List.mem_filter.mp hx).2
    simp at this

theorem firstSeen_concat_not_mem {x : String} :
    ∀ {xs : List String}, x ∉ xs → firstSeen (xs ++ [x]) = firstSeen xs ++ [x] := by
  intro xs
  induction xs with
  | nil => intro _; simp [firstSeen]
  | cons y ys ih =>
    intro hx
    have hxy : x ≠ y := fun e => hx (e ▸ List.mem_cons_self y ys)
    have hxys : x ∉ ys := fun e => hx (List.mem_cons_of_mem y e)
    rw [List.cons_append, firstSeen, firstSeen, ih hxys, List.filter_append]
    simp [hxy]

theorem firstSeen_concat_mem {x : String} :
    ∀ {xs : List String}, x ∈ xs → firstSeen (xs ++ [x]) = firstSeen xs := by
  intro xs
  induction xs with
  | nil => intro h; cases h
  | cons y ys ih =>
    intro hx
    by_cases hys : x ∈ ys
    · rw [List.cons_append, firstSeen, firstSeen, ih hys]
    · have hxy : x = y := by
        rcases List.mem_cons.mp hx with h | h
        · exact h
        · exact absurd h hys
      subst hxy
      rw [List.cons_append, firstSeen, firstSeen, firstSeen_concat_not_mem hys,
        List.filter_append]
      simp

theorem usersOf_concat (l : List (String × String)) (u h0 h : String) :
    usersOf (l ++ [(u, h0)]) h = usersOf l h ++ (if h0 = h then [u] else []) := by
  rw [usersOf, usersOf, List.filter_append, List.map_append]
  congr 1
  by_cases he : h0 = h <;> simp [he]

theorem usersOf_eq_nil {l : List (String × String)} {h : String}
    (hm : h ∉ l.map Prod.snd) : usersOf l h = [] := by
  rw [usersOf, List.filter_eq_nil_iff.mpr, List.map_nil]
  intro p hp
  simp only [beq_iff_eq]
  exact fun e => hm (List.mem_map.mpr ⟨p, hp, e⟩)

theorem hash_to_users_eq (hashes : List (String × String)) :
    hash_to_users hashes
      = (firstSeen (hashes.map Prod.snd)).map (fun h => (h, usersOf hashes h)) := by
  induction hashes using List.reverseRecOn with
  | nil => rfl
  | append_singleton l p ih =>
    obtain ⟨u, h0⟩ := p
    have hstep : hash_to_users (l ++ [(u, h0)]) = addUser (hash_to_users l) h0 u := by
      rw [hash_to_users, hash_to_users, List.foldl_append, List.foldl_cons, List.foldl_nil]
    rw [hstep, ih]
    have hmapsnd : (l ++ [(u, h0)]).map Prod.snd = l.map Prod.snd ++ [h0] := by simp
    by_cases hmem : h0 ∈ l.map Prod.snd
    · have hany : ((firstSeen (l.map Prod.snd)).map (fun h => (h, usersOf l h))).any
          (fun p => p.1 == h0) = true := by
        rw [List.any_eq_true]
        exact ⟨(h0, usersOf l h0),
          List.mem_map.mpr ⟨h0, mem_firstSeen.mpr hmem, rfl⟩, by simp⟩
      rw [addUser, if_pos hany, List.map_map, hmapsnd, firstSeen_concat_mem hmem]
      apply List.map_congr_left
      intro h hh
      by_cases he : h = h0
      · subst he; simp [usersOf_concat]
      · have : ¬ (h0 = h) := fun e => he e.symm
        simp [usersOf_concat, he, this]
    · have hany : ((firstSeen (l.map Prod.snd)).map (fun h => (h, usersOf l h))).any
          (fun p => p.1 == h0) = false := by
        rw [List.any_eq_false]
        intro p hp
        obtain ⟨h, hh, he⟩ := List.mem_map.mp hp
        have hne : h ≠ h0 := fun e => hmem (e ▸ mem_firstSeen.mp hh)
        rw [← he]
        simpa using hne
      rw [addUser, if_neg (by rw [hany]; exact Bool.false_ne_true),
        hmapsnd, firstSeen_concat_not_mem hmem, List.map_append]
      congr 1
      · apply List.map_congr_left
        intro h hh
        have hne : ¬ (h0 = h) := fun e => hmem (e ▸ mem_firstSeen.mp hh)
        simp [usersOf_concat, hne]
      · simp [usersOf_concat, usersOf_eq_nil hmem]

theorem mem_hash_to_users {hashes : List (String × String)} {h : String}
    {us : List String} :
    (h, us) ∈ hash_to_users hashes ↔
      h ∈ hashes.map Prod.snd ∧ us = usersOf hashes h := by
  rw [hash_to_users_eq, List.mem_map]
  constructor
  · rintro ⟨a, ha, he⟩
    injection he with e1 e2
    subst e1
    exact ⟨mem_firstSeen.mp ha, e2.symm⟩
  · rintro ⟨hm, he⟩
    exact ⟨h, mem_firstSeen.mpr hm, by rw [he]⟩

theorem keys_hash_to_users (hashes : List (String × String)) :
    (hash_to_users hashes).map Prod.fst = firstSeen (hashes.map Prod.snd) := by
  rw [hash_to_users_eq, List.map_map]
  exact List.map_id _

theorem mem_find_duplicate_hashes {hashes : List (String × String)} {h : String}
    {us : List String} :
    (h, us) ∈ find_duplicate_hashes hashes ↔
      h ∈ hashes.map Prod.snd ∧ us = usersOf hashes h ∧ 2 ≤ us.length := by
  rw [find_duplicate_hashes, List.mem_filter]
  constructor
  · rintro ⟨hmem, hlen⟩
    obtain ⟨h1, h2⟩ := mem_hash_to_users.mp hmem
    exact ⟨h1, h2, by simpa using hlen⟩
  · rintro ⟨h1, h2, h3⟩
    exact ⟨mem_hash_to_users.mpr ⟨h1, h2⟩, by simpa using h3⟩

theorem keys_find_duplicate_hashes_nodup (hashes : List (String × String)) :
    ((find_duplicate_hashes hashes).map Prod.fst).Nodup := by
  have hsub : List.Sublist (find_duplicate_hashes hashes) (hash_to_users hashes) :=
    List.filter_sublist _
  have : List.Sublist ((find_duplicate_hashes hashes).map Prod.fst)
      ((hash_to_users hashes).map Prod.fst) := hsub.map _
  refine List.Nodup.sublist this ?_
  rw [keys_hash_to_users]
  exact firstSeen_nodup _

theorem nodupKeys_eq {l : List (String × List String)}
    (hnd : (l.map Prod.fst).Nodup) {a : String} {b c : List String}
    (hb : (a, b) ∈ l) (hc : (a, c) ∈ l) : b = c := by
  induction l with
  | nil => cases hb
  | cons p l ih =>
    have hnd' : (l.map Prod.fst).Nodup := (List.nodup_cons.mp (by simpa using hnd)).2
    have hhead : p.1 ∉ l.map Prod.fst := (List.nodup_cons.mp (by simpa using hnd)).1
    rcases List.mem_cons.mp hb with hb1 | hb1 <;> rcases List.mem_cons.mp hc with hc1 | hc1
    · rw [← hb1] at hc1; exact (Prod.mk.injEq .. ▸ hc1).2.symm
    · exfalso; apply hhead; rw [← hb1]; exact List.mem_map.mpr ⟨(a, c), hc1, rfl⟩
    · exfalso; apply hhead; rw [← hc1]; exact List.mem_map.mpr ⟨(a, b), hb1, rfl⟩
    · exact ih hnd' hb1 hc1

/-! ### Helper lemmas about the renderer -/

theorem foldl_partitionStep (priv : List String) :
    ∀ (l : List (String × List String)) (a b : List Entry),
    l.foldl (partitionStep priv) (a, b)
      = (a ++ (l.filter (fun g => contains_privileged priv g.2)).map (entryOf priv),
         b ++ (l.filter (fun g => !contains_privileged priv g.2)).map (entryOf priv)) := by
  intro l
  induction l with
  | nil => intro a b; simp
  | cons g l ih =>
    intro a b
    rw [List.foldl_cons]
    cases hp : contains_privileged priv g.2
    · rw [show partitionStep priv (a, b) g = (a, b ++ [entryOf priv g]) by
        rw [partitionStep, hp]; simp]
      rw [ih, List.filter_cons, List.filter_cons, hp]
      simp
    · rw [show partitionStep priv (a, b) g = (a ++ [entryOf priv g], b) by
        rw [partitionStep, hp]; simp]
      rw [ih, List.filter_cons, List.filter_cons, hp]
      simp

theorem sorted_table_eq (priv : List String) (dups : List (String × List String)) :
    sorted_table priv dups
      = (dups.filter (fun g => contains_privileged priv g.2)).map (entryOf priv)
        ++ (dups.filter (fun g => !contains_privileged priv g.2)).map (entryOf priv) := by
  rw [sorted_table, foldl_partitionStep]
  simp

theorem sorted_table_perm (priv : List String) (dups : List (String × List String)) :
    List.Perm (sorted_table priv dups) (dups.map (entryOf priv)) := by
  rw [sorted_table_eq, ← List.map_append]
  exact (List.filter_append_perm _ dups).map _

theorem mem_sorted_table {priv : List String} {dups : List (String × List String)}
    {e : Entry} :
    e ∈ sorted_table priv dups ↔ ∃ g ∈ dups, e = entryOf priv g := by
  rw [(sorted_table_perm priv dups).mem_iff, List.mem_map]
  constructor
  · rintro ⟨g, hg, he⟩; exact ⟨g, hg, he.symm⟩
  · rintro ⟨g, hg, he⟩; exact ⟨g, hg, he.symm⟩

/-! ### Claim theorems -/

/-- Claim C6: `find_duplicate_hashes` returns exactly those hash values mapped
to by 2 or more identifiers, each with the full list of its identifiers in
mapping iteration (first-seen) order (`usersOf`), and every group in its
output has member count at least 2 — no group of size 1 appears. -/
theorem C6_duplicate_grouper_characterization
    (hashes : List (String × String)) (h : String) (us : List String) :
    ((h, us) ∈ find_duplicate_hashes hashes ↔
      (h ∈ hashes.map Prod.snd ∧ us = usersOf hashes h ∧ 2 ≤ us.length))
    ∧ (∀ g ∈ find_duplicate_hashes hashes, 2 ≤ g.2.length) := by
  constructor
  · exact mem_find_duplicate_hashes
  · intro g hg
    have hlen := (List.mem_filter.mp hg).2
    simpa using hlen

/-- Witness for C6 at a concrete mapping: the shared hash `h1` is reported
with both its identifiers and the singleton hash `h2` is dropped. -/
theorem C6_duplicate_grouper_characterization_witness :
    ("h1", ["a", "b"]) ∈ find_duplicate_hashes [("a", "h1"), ("b", "h1"), ("c", "h2")]
    ∧ ∀ g ∈ find_duplicate_hashes [("a", "h1"), ("b", "h1"), ("c", "h2")],
        2 ≤ g.2.length := by
  have h := C6_duplicate_grouper_characterization
    [("a", "h1"), ("b", "h1"), ("c", "h2")] "h1" ["a", "b"]
  exact ⟨h.1.mpr (by decide), h.2⟩

/-- Claim C10: the parser stores field 3 verbatim as the hash value, including
when it is empty: a line with at least 4 colon-separated fields parses to an
account whose hash is exactly field 3, and identifiers sharing the empty hash
value form a duplicate group like any other shared hash. -/
theorem C10_empty_hash_field_grouped (line : String)
    (hashes : List (String × String))
    (hlen : 4 ≤ (pySplit ':' (pyStrip line)).length)
    (hdup : 2 ≤ (usersOf hashes "").length) :
    parseLine line
      = some (stripDomain (pyLower ((pySplit ':' (pyStrip line)).getD 0 "")),
          (pySplit ':' (pyStrip line)).getD 3 "")
    ∧ ("", usersOf hashes "") ∈ find_duplicate_hashes hashes := by
  constructor
  · rw [parseLine, if_pos hlen]
  · have hmem : "" ∈ hashes.map Prod.snd := by
      by_contra hno
      rw [usersOf_eq_nil hno] at hdup
      exact absurd hdup (by decide)
    exact mem_find_duplicate_hashes.mpr ⟨hmem, rfl, hdup⟩

/-- Witness for C10: `alice:1:x::::` has an empty 4th field, parses with hash
`""`, and two accounts with empty hash are reported as a duplicate group. -/
theorem C10_empty_hash_field_grouped_witness :
    parseLine "alice:1:x::::" = some ("alice", "")
    ∧ ("", ["alice", "bob"]) ∈ find_duplicate_hashes [("alice", ""), ("bob", "")] := by
  have h := C10_empty_hash_field_grouped "alice:1:x::::" [("alice", ""), ("bob", "")]
    (by decide) (by decide)
  constructor
  · rw [h.1]; decide
  · have e : usersOf [("alice", ""), ("bob", "")] "" = ["alice", "bob"] := by decide
    exact e ▸ h.2

/-- Claim C5: for every group rendered to the console, a group with at most 5
members lists all members in order, each privileged member wrapped in literal
asterisks and each non-privileged member unmarked; a group with more than 5
members shows only the member count together with the export note. -/
theorem C5_console_member_display (priv : List String) (g : String × List String) :
    (g.2.length ≤ 5 →
      (entryOf priv g).displayed
        = String.intercalate ", "
            (g.2.map (fun u => specMemberDisplay (priv.contains (pyLower u)) u)))
    ∧ (5 < g.2.length →
      (entryOf priv g).displayed
        = toString g.2.length ++ " accounts detected. Export to CSV for full list.") := by
  constructor
  · intro hle
    show displayed_users priv g.2 = _
    rw [displayed_users, if_pos hle]
    have he : highlighted_users priv g.2
        = g.2.map (fun u => specMemberDisplay (priv.contains (pyLower u)) u) := by
      show g.2.map (highlight priv) = _
      apply List.map_congr_left
      intro u _
      rw [highlight, specMemberDisplay]
    rw [he]
  · intro hgt
    show displayed_users priv g.2 = _
    rw [displayed_users, if_neg (by omega)]

/-- Witness for C5: both display branches at concrete groups — `bob` is
privileged and wrapped in asterisks in a 2-member group; a 6-member group
shows only the count text. -/
theorem C5_console_member_display_witness :
    (entryOf ["bob"] ("h", ["alice", "bob"])).displayed = "alice, *bob*"
    ∧ (entryOf [] ("h", ["a", "b", "c", "d", "e", "f"])).displayed
        = "6 accounts detected. Export to CSV for full list." := by
  constructor
  · rw [(C5_console_member_display ["bob"] ("h", ["alice", "bob"])).1 (by decide)]
    decide
  · rw [(C5_console_member_display [] ("h", ["a", "b", "c", "d", "e", "f"])).2 (by decide)]
    decide

/-- Claim C4: the console table is the privileged groups (in the grouper's
order) followed by the non-privileged groups (in the grouper's order) — so no
non-privileged group precedes a privileged one — and, the group keys being
distinct, no group appears more than once in the table. -/
theorem C4_console_privileged_first (priv : List String)
    (dups : List (String × List String)) (hnd : (dups.map Prod.fst).Nodup) :
    sorted_table priv dups
      = (dups.filter (fun g => contains_privileged priv g.2)).map (entryOf priv)
        ++ (dups.filter (fun g => !contains_privileged priv g.2)).map (entryOf priv)
    ∧ ((sorted_table priv dups).map Entry.hash).Nodup := by
  refine ⟨sorted_table_eq priv dups, ?_⟩
  have hperm := (sorted_table_perm priv dups).map Entry.hash
  rw [hperm.nodup_iff, List.map_map]
  exact hnd

/-- Witness for C4: the privileged group `h2` is listed before `h1` even
though `h1` was discovered first, and no group repeats. -/
theorem C4_console_privileged_first_witness :
    sorted_table ["bob"] [("h1", ["alice", "carol"]), ("h2", ["bob", "dan"])]
      = [⟨"h2", 2, "*bob*, dan"⟩, ⟨"h1", 2, "alice, carol"⟩] := by
  have h := C4_console_privileged_first ["bob"]
    [("h1", ["alice", "carol"]), ("h2", ["bob", "dan"])] (by decide)
  rw [h.1]
  decide

/-- Claim C3: for every duplicate group, the console row and the export data
row with the same hash value are generated from exactly the same member list:
the group's entry is in the console table, any console entry and any export
row carrying that hash equal the ones derived from this group, and (for
groups of at most 5 members) the console text coincides with the export
member field. -/
theorem C3_console_export_same_members (priv : List String)
    (dups : List (String × List String)) (h : String) (us : List String)
    (hnd : (dups.map Prod.fst).Nodup) (hmem : (h, us) ∈ dups) :
    entryOf priv (h, us) ∈ sorted_table priv dups
    ∧ (∀ e ∈ sorted_table priv dups, e.hash = h → e = entryOf priv (h, us))
    ∧ exportRow priv (h, us) ∈ (exportRowsOf priv dups).tail
    ∧ (∀ g ∈ dups, g.1 = h → exportRow priv g = exportRow priv (h, us))
    ∧ (us.length ≤ 5 →
        (entryOf priv (h, us)).displayed = (exportRow priv (h, us)).getD 2 "") := by
  refine ⟨?_, ?_, ?_, ?_, ?_⟩
  · exact mem_sorted_table.mpr ⟨(h, us), hmem, rfl⟩
  · intro e he hhash
    obtain ⟨g, hg, hge⟩ := mem_sorted_table.mp he
    have hg1 : g.1 = h := by rw [hge] at hhash; exact hhash
    have hgmem : (h, g.2) ∈ dups := by rw [← hg1]; exact hg
    have : us = g.2 := nodupKeys_eq hnd hmem hgmem
    rw [hge, this, ← hg1]
  · show exportRow priv (h, us) ∈ dups.map (exportRow priv)
    exact List.mem_map.mpr ⟨(h, us), hmem, rfl⟩
  · intro g hg hg1
    have hgmem : (h, g.2) ∈ dups := by rw [← hg1]; exact hg
    have : us = g.2 := nodupKeys_eq hnd hmem hgmem
    rw [this, ← hg1]
  · intro hle
    show displayed_users priv us = _
    rw [displayed_users, if_pos hle]
    rfl

/-- Witness for C3 at a concrete pair of groups: the console entry for `h2`
appears and its member text equals the export row's member field. -/
theorem C3_console_export_same_members_witness :
    entryOf [] ("h2", ["c", "d"]) ∈ sorted_table [] [("h1", ["a", "b"]), ("h2", ["c", "d"])]
    ∧ (entryOf [] ("h2", ["c", "d"])).displayed = (exportRow [] ("h2", ["c", "d"])).getD 2 "" := by
  have h := C3_console_export_same_members [] [("h1", ["a", "b"]), ("h2", ["c", "d"])]
    "h2" ["c", "d"] (by decide) (by decide)
  exact ⟨h.1, h.2.2.2.2 (by decide)⟩

/-- Claim C7: the process exits with code 1 exactly when the dump file is
missing or yields zero parsed records; in every other run — including the
parsed-but-no-duplicates case — it exits with code 0. -/
theorem C7_exit_codes (dumpFile : Option (List String))
    (privArg : Option (Option (List String))) (outputRequested : Bool) :
    ((runHashhound dumpFile privArg outputRequested).exitCode = 1 ↔
      (dumpFile = none ∨ ∃ ls, dumpFile = some ls ∧ load_hashes ls = []))
    ∧ ((runHashhound dumpFile privArg outputRequested).exitCode = 0 ↔
      ¬ (dumpFile = none ∨ ∃ ls, dumpFile = some ls ∧ load_hashes ls = [])) := by
  cases dumpFile with
  | none => simp [runHashhound]
  | some lines =>
    by_cases hemp : load_hashes lines = []
    · simp [runHashhound, runCore, hemp]
    · have hemp' : (load_hashes lines).isEmpty = false := by
        simp [List.isEmpty_iff, hemp]
      by_cases hd : (find_duplicate_hashes (load_hashes lines)).isEmpty
      · simp [runHashhound, runCore, hemp', hd, hemp]
      · simp only [Bool.not_eq_true] at hd
        simp [runHashhound, runCore, hemp', hd, hemp]

/-- Witness for C7: a missing dump file exits with code 1. -/
theorem C7_exit_codes_witness : (runHashhound none none false).exitCode = 1 :=
  (C7_exit_codes none none false).1.mpr (Or.inl rfl)

/-- Claim C8: when the `--privileged` path is supplied but the file is
missing, every observable outcome (exit code, notice, console table, export
file) coincides with the run where no privileged file was given; the warning
is emitted whenever the analysis reaches the privileged loader, and the
condition never terminates the process. -/
theorem C8_missing_privileged_file_recoverable (dumpFile : Option (List String))
    (outputRequested : Bool) :
    (runHashhound dumpFile (some none) outputRequested).exitCode
        = (runHashhound dumpFile none outputRequested).exitCode
    ∧ (runHashhound dumpFile (some none) outputRequested).noDupNotice
        = (runHashhound dumpFile none outputRequested).noDupNotice
    ∧ (runHashhound dumpFile (some none) outputRequested).consoleTable
        = (runHashhound dumpFile none outputRequested).consoleTable
    ∧ (runHashhound dumpFile (some none) outputRequested).exportFile
        = (runHashhound dumpFile none outputRequested).exportFile
    ∧ (∀ ls, dumpFile = some ls → load_hashes ls ≠ [] →
        (runHashhound dumpFile (some none) outputRequested).privWarning = true) := by
  cases dumpFile with
  | none => simp [runHashhound]
  | some lines =>
    by_cases hemp : load_hashes lines = []
    · refine ⟨by simp [runHashhound, runCore, hemp], by simp [runHashhound, runCore, hemp],
        by simp [runHashhound, runCore, hemp], by simp [runHashhound, runCore, hemp], ?_⟩
      intro ls hls hne
      injection hls with e
      exact absurd (e ▸ hemp) hne
    · have hemp' : (load_hashes lines).isEmpty = false := by
        simp [List.isEmpty_iff, hemp]
      by_cases hd : (find_duplicate_hashes (load_hashes lines)).isEmpty
      · simp [runHashhound, runCore, hemp', hd, privOf]
      · simp only [Bool.not_eq_true] at hd
        simp [runHashhound, runCore, hemp', hd, privOf]

/-- Witness for C8 at a concrete dump: the missing privileged file produces
the warning and the same console table as running without `--privileged`. -/
theorem C8_missing_privileged_file_recoverable_witness :
    (runHashhound (some ["alice:1:x:h:::", "bob:2:x:h:::"]) (some none) false).privWarning = true
    ∧ (runHashhound (some ["alice:1:x:h:::", "bob:2:x:h:::"]) (some none) false).consoleTable
        = (runHashhound (some ["alice:1:x:h:::", "bob:2:x:h:::"]) none false).consoleTable := by
  have h := C8_missing_privileged_file_recoverable
    (some ["alice:1:x:h:::", "bob:2:x:h:::"]) false
  exact ⟨h.2.2.2.2 ["alice:1:x:h:::", "bob:2:x:h:::"] rfl (by decide), h.2.2.1⟩

/-- Counterexample to claim C1: a dump that parses but has all-unique hashes,
run with an export destination supplied. The program prints the no-duplicates
notice and exits 0, but `display_results` returns before the CSV block, so no
export file is created at all — refuting the claim that a header-only export
file is still written. -/
theorem C1_counterexample :
    (runHashhound (some ["alice:1:x:h1:::", "bob:2:x:h2:::"]) none true).exportFile = none
    ∧ (runHashhound (some ["alice:1:x:h1:::", "bob:2:x:h2:::"]) none true).exitCode = 0
    ∧ (runHashhound (some ["alice:1:x:h1:::", "bob:2:x:h2:::"]) none true).noDupNotice = true := by
  decide

/-- Claim C1 as amended: if the dump parses to at least one record but no
duplicate group exists, the run prints the no-duplicates notice, prints no
table, writes no export file (even when an export destination was supplied),
and exits with code 0. -/
theorem C1_amended_no_duplicates_no_export (lines : List String)
    (privArg : Option (Option (List String))) (outputRequested : Bool)
    (hne : load_hashes lines ≠ [])
    (hnodup : find_duplicate_hashes (load_hashes lines) = []) :
    (runHashhound (some lines) privArg outputRequested).exitCode = 0
    ∧ (runHashhound (some lines) privArg outputRequested).noDupNotice = true
    ∧ (runHashhound (some lines) privArg outputRequested).consoleTable = none
    ∧ (runHashhound (some lines) privArg outputRequested).exportFile = none := by
  have hemp' : (load_hashes lines).isEmpty = false := by
    simp [List.isEmpty_iff, hne]
  have hd : (find_duplicate_hashes (load_hashes lines)).isEmpty = true := by
    simp [List.isEmpty_iff, hnodup]
  simp [runHashhound, runCore, hemp', hd]

/-- Witness for the amended C1 at a concrete all-unique dump with an export
destination supplied. -/
theorem C1_amended_no_duplicates_no_export_witness :
    (runHashhound (some ["carol:1:x:h3:::", "dan:2:x:h4:::"]) none true).exitCode = 0
    ∧ (runHashhound (some ["carol:1:x:h3:::", "dan:2:x:h4:::"]) none true).noDupNotice = true
    ∧ (runHashhound (some ["carol:1:x:h3:::", "dan:2:x:h4:::"]) none true).consoleTable = none
    ∧ (runHashhound (some ["carol:1:x:h3:::", "dan:2:x:h4:::"]) none true).exportFile = none :=
  C1_amended_no_duplicates_no_export ["carol:1:x:h3:::", "dan:2:x:h4:::"] none true
    (by decide) (by decide)

/-- Counterexample to claim C2: the export file's first row is the literal
`NT Hash,Shared By (Count),User Accounts`, not the
`HashValue, SharedByCount, UserAccounts` stated by the claim. -/
theorem C2_counterexample :
    ((runHashhound (some ["alice:1:x:h1:::", "bob:2:x:h1:::"]) none true).exportFile.getD
        []).headD [] = exportHeader
    ∧ csvRow exportHeader = "NT Hash,Shared By (Count),User Accounts"
    ∧ csvRow exportHeader ≠ "HashValue, SharedByCount, UserAccounts" := by
  decide

/-- Claim C2 as amended: whenever the export file is written, its first row
is the header `NT Hash, Shared By (Count), User Accounts`, followed by one
comma-delimited row per duplicate group, with a field quoted whenever it
embeds a comma. -/
theorem C2_amended_export_format (lines : List String)
    (privArg : Option (Option (List String))) (rows : List (List String))
    (hexp : (runHashhound (some lines) privArg true).exportFile = some rows) :
    (∃ priv, rows
        = exportHeader
          :: (find_duplicate_hashes (load_hashes lines)).map (exportRow priv))
    ∧ rows.length = (find_duplicate_hashes (load_hashes lines)).length + 1
    ∧ csvRow exportHeader = "NT Hash,Shared By (Count),User Accounts"
    ∧ (∀ s : String, ',' ∈ s.data → ∃ t, csvField s = "\"" ++ t ++ "\"") := by
  by_cases hemp : (load_hashes lines).isEmpty
  · rw [runHashhound, runCore] at hexp
    rw [if_pos hemp] at hexp
    cases hexp
  · by_cases hd : (find_duplicate_hashes (load_hashes lines)).isEmpty
    · rw [runHashhound, runCore] at hexp
      rw [if_neg (by simp [hemp])] at hexp
      simp only [hd, if_true] at hexp
      cases hexp
    · have hrows : rows
          = exportRowsOf (privOf privArg).1 (find_duplicate_hashes (load_hashes lines)) := by
        rw [runHashhound, runCore] at hexp
        rw [if_neg (by simp [hemp])] at hexp
        simp only [hd, Bool.false_eq_true, if_false, if_true] at hexp
        exact (Option.some.injEq .. ▸ hexp).symm
      refine ⟨⟨(privOf privArg).1, by rw [hrows]; rfl⟩, ?_, by decide, ?_⟩
      · rw [hrows, exportRowsOf, List.length_cons, List.length_map]
      · intro s hs
        have hq : needsQuote s = true :=
          List.any_eq_true.mpr ⟨',', hs, by decide⟩
        exact ⟨String.mk (escapeQuotes s.data), by rw [csvField, if_pos hq]⟩

/-- Witness for the amended C2 at a concrete duplicate-bearing run: the
header serializes to the actual literal and a member field carrying a comma
is quoted. -/
theorem C2_amended_export_format_witness :
    csvRow exportHeader = "NT Hash,Shared By (Count),User Accounts"
    ∧ ∃ t, csvField "alice, bob" = "\"" ++ t ++ "\"" := by
  have h := C2_amended_export_format ["alice:1:x:h1:::", "bob:2:x:h1:::"] none
    [["NT Hash", "Shared By (Count)", "User Accounts"], ["h1", "2", "alice, bob"]]
    (by decide)
  exact ⟨h.2.2.1, h.2.2.2 "alice, bob" (by decide)⟩

/-! ### Helper lemmas for C9 -/

theorem mem_setInsert {s : List String} {x y : String} :
    y ∈ setInsert s x ↔ y ∈ s ∨ y = x := by
  rw [setInsert]
  by_cases hc : s.contains x
  · rw [if_pos hc]
    have hx : x ∈ s := by simpa using hc
    constructor
    · exact Or.inl
    · rintro (hy | hy)
      · exact hy
      · exact hy ▸ hx
  · rw [if_neg hc]
    simp

theorem mem_load_privileged_accounts_aux (f : String → String) :
    ∀ (lines : List String) (acc : List String) (y : String),
    y ∈ lines.foldl (fun s line => setInsert s (f line)) acc ↔
      y ∈ acc ∨ ∃ line ∈ lines, f line = y := by
  intro lines
  induction lines with
  | nil => intro acc y; simp
  | cons l ls ih =>
    intro acc y
    rw [List.foldl_cons, ih]
    rw [mem_setInsert]
    constructor
    · rintro ((hy | hy) | ⟨m, hm, he⟩)
      · exact Or.inl hy
      · exact Or.inr ⟨l, List.mem_cons_self l ls, hy.symm⟩
      · exact Or.inr ⟨m, List.mem_cons_of_mem l hm, he⟩
    · rintro (hy | ⟨m, hm, he⟩)
      · exact Or.inl (Or.inl hy)
      · rcases List.mem_cons.mp hm with hm1 | hm1
        · exact Or.inl (Or.inr (hm1 ▸ he).symm)
        · exact Or.inr ⟨m, hm1, he⟩

theorem mem_load_privileged_accounts {lines : List String} {y : String} :
    y ∈ load_privileged_accounts lines ↔
      ∃ line ∈ lines, stripDomain (pyLower (pyStrip line)) = y := by
  rw [load_privileged_accounts, mem_load_privileged_accounts_aux]
  simp

theorem contains_filter_ne_empty {priv : List String} {y : String} (hy : y ≠ "") :
    priv.contains y = (priv.filter (fun x => x != "")).contains y := by
  induction priv with
  | nil => rfl
  | cons p ps ih =>
    rw [List.filter_cons]
    by_cases hp : p = ""
    · have h1 : (p != "") = false := by simp [hp]
      have h2 : (y == p) = false := by
        simp only [beq_eq_false_iff_ne, ne_eq, hp]
        exact hy
      rw [h1, if_neg (by simp)]
      rw [List.contains_cons, h2, Bool.false_or, ih]
    · have h1 : (p != "") = true := by simp [hp]
      rw [h1, if_pos rfl]
      rw [List.contains_cons, List.contains_cons, ih]

/-- Counterexample to claim C9: the dump line `:1:x:h:::` parses with the
empty-string identifier, which the empty-string member of the privileged set
(from a blank line) does match — the group is classified privileged and the
empty member is rendered as `**`. -/
theorem C9_counterexample :
    load_privileged_accounts [""] = [""]
    ∧ (runHashhound (some [":1:x:h:::", "bob:2:x:h:::"]) (some (some [""])) false).consoleTable
        = some [⟨"h", 2, "**, bob"⟩]
    ∧ contains_privileged (load_privileged_accounts [""]) ["", "bob"] = true := by
  decide

/-- Claim C9 as amended: an empty line in the privileged-accounts file yields
an empty-string member of the PrivilegedSet, and that member matches only
accounts whose normalized identifier is itself empty: for member lists whose
identifiers all normalize to a nonempty string, dropping every empty-string
member of the privileged set changes neither the privileged classification
nor the member highlighting. -/
theorem C9_amended_empty_member (privLines : List String) (priv : List String)
    (users : List String) (hblank : "" ∈ privLines)
    (hids : ∀ u ∈ users, pyLower u ≠ "") :
    "" ∈ load_privileged_accounts privLines
    ∧ contains_privileged priv users
        = contains_privileged (priv.filter (fun x => x != "")) users
    ∧ highlighted_users priv users
        = highlighted_users (priv.filter (fun x => x != "")) users := by
  refine ⟨?_, ?_, ?_⟩
  · exact mem_load_privileged_accounts.mpr ⟨"", hblank, by decide⟩
  · show users.any _ = users.any _
    induction users with
    | nil => rfl
    | cons u us ih =>
      have hu : pyLower u ≠ "" := hids u (List.mem_cons_self u us)
      have ihs : ∀ v ∈ us, pyLower v ≠ "" :=
        fun v hv => hids v (List.mem_cons_of_mem u hv)
      rw [List.any_cons, List.any_cons, ih ihs, contains_filter_ne_empty hu]
  · show users.map _ = users.map _
    apply List.map_congr_left
    intro u hu
    rw [highlight, highlight, contains_filter_ne_empty (hids u hu)]

/-- Witness for the amended C9: with privileged file lines `["", "admin"]`
the empty member is present, yet classification and highlighting of
`["alice", "admin"]` are unchanged when empty members are dropped. -/
theorem C9_amended_empty_member_witness :
    "" ∈ load_privileged_accounts ["", "admin"]
    ∧ contains_privileged ["", "admin"] ["alice", "admin"]
        = contains_privileged (["", "admin"].filter (fun x => x != "")) ["alice", "admin"]
    ∧ highlighted_users ["", "admin"] ["alice", "admin"]
        = highlighted_users (["", "admin"].filter (fun x => x != "")) ["alice", "admin"] :=
  C9_amended_empty_member ["", "admin"] ["", "admin"] ["alice", "admin"]
    (by decide) (by decide)

end HashHound
